import Mathlib

/-!
Shallow embedding of the expense-tracker ledger store and report engine.

The repository has two near-duplicate implementations of the same
ledger over one SQLite table `expenses(id INTEGER PRIMARY KEY
AUTOINCREMENT, date TEXT, amount REAL, category TEXT, description TEXT)`:
`src/Project2.py` (plain Tk) and `src/chk.py` (ttkbootstrap).  Both
connect to the same database file, so the store semantics is shared; the
two `add_expense` methods differ in validation and are embedded
separately.

Modelling decisions:
  * A store state is the list of table rows in insertion (rowid) order
    plus the AUTOINCREMENT counter (`sqlite_sequence` value + 1); with
    `AUTOINCREMENT` SQLite assigns ids strictly increasing and never
    reuses one, which the counter captures.
  * `REAL` amounts are modelled as `Rat`: the claims under study concern
    which rows are grouped and summed, not double rounding.
  * Python `float(s)` on form input is modelled for ordinary decimal
    literals (optional surrounding whitespace, optional sign, digits
    with optional fraction and exponent); the special tokens
    `inf`/`nan` and digit underscores are outside the model.
  * `date LIKE m || '%'` is modelled as a prefix match on the date
    string: for the `YYYY-MM` patterns under study (digits and a dash,
    no `%`/`_` wildcards, no letters) SQLite `LIKE` is exactly that.
  * `ORDER BY date DESC` / `ORDER BY month` use SQLite's binary text
    comparison, modelled as lexicographic comparison of the char list.
-/

namespace ExpenseStore

/-- One row of the `expenses` table. -/
structure ExpenseRecord where
  id : Nat
  date : String
  amount : Rat
  category : String
  description : String
deriving DecidableEq, Repr

/-- The persistent state: rows in insertion order plus the
`AUTOINCREMENT` counter (the next id to be assigned; SQLite starts
at 1). -/
structure Store where
  rows : List ExpenseRecord
  next_id : Nat
deriving DecidableEq, Repr

/-- The empty database created by `setup_database` / the module-level
setup in `chk.py`. -/
def emptyStore : Store := ⟨[], 1⟩

/-! ### Python `float()` on decimal literals -/

/-- Value of a digit string, most significant first. -/
def digitsToNat (cs : List Char) : Nat :=
  cs.foldl (fun n c => 10 * n + (c.toNat - 48)) 0

/-- Strip leading and trailing whitespace, as Python `float` does to its
argument. -/
def trimChars (cs : List Char) : List Char :=
  ((cs.dropWhile Char.isWhitespace).reverse.dropWhile Char.isWhitespace).reverse

/-- Parse the optional exponent suffix (`e`/`E`, optional sign, digits)
and apply it to the value `num / den`; anything trailing fails the
parse. -/
def parseExpSuffix (num : Int) (den : Nat) (cs : List Char) : Option Rat :=
  match cs with
  | [] => some (mkRat num den)
  | c :: r =>
    if c = 'e' ∨ c = 'E' then
      let (neg, r2) : Bool × List Char :=
        match r with
        | '+' :: t => (false, t)
        | '-' :: t => (true, t)
        | t => (false, t)
      let ds := r2.takeWhile Char.isDigit
      if ds.isEmpty ∨ ¬(r2.dropWhile Char.isDigit).isEmpty then none
      else
        let e := digitsToNat ds
        some (if neg then mkRat num (den * 10 ^ e) else mkRat (num * (10 : Int) ^ e) den)
    else none

/-- Parse an unsigned decimal literal: digits, optionally with a `.` and
fraction digits, optionally followed by an exponent. -/
def parseUnsigned (cs : List Char) : Option Rat :=
  let ip := cs.takeWhile Char.isDigit
  let r1 := cs.dropWhile Char.isDigit
  match r1 with
  | '.' :: r2 =>
    let fp := r2.takeWhile Char.isDigit
    let r3 := r2.dropWhile Char.isDigit
    if ip.isEmpty ∧ fp.isEmpty then none
    else parseExpSuffix (digitsToNat (ip ++ fp) : Int) (10 ^ fp.length) r3
  | _ => if ip.isEmpty then none else parseExpSuffix (digitsToNat ip : Int) 1 r1

/-- Python `float(s)` on an ordinary decimal literal: `none` models the
`ValueError` raised when the text is not numeric. -/
def parseFloat (s : String) : Option Rat :=
  let cs := trimChars s.toList
  match cs with
  | '-' :: r => (parseUnsigned r).map (fun q => -q)
  | '+' :: r => parseUnsigned r
  | _ => parseUnsigned cs

/-! ### Ledger store operations -/

/-- Outcome of an `add_expense` call.  `validationError` is the
recoverable `messagebox.showerror` path; `valueError` is a Python
`ValueError` escaping the handler (an uncaught crash, not a dialog). -/
inductive CreateResult where
  | ok (s : Store)
  | validationError (msg : String)
  | valueError
deriving DecidableEq, Repr

/-- The `INSERT INTO expenses (date, amount, category, description)`
statement: appends a row with the next AUTOINCREMENT id and bumps the
counter. -/
def insertRow (s : Store) (date : String) (amount : Rat)
    (category description : String) : Store :=
  ⟨s.rows ++ [⟨s.next_id, date, amount, category, description⟩], s.next_id + 1⟩

/-- `ExpenseTracker.add_expense` of `src/Project2.py`: checks the three
required fields for truthiness, then calls `float(amount)` with no
`try`, so a non-numeric amount raises `ValueError` before any insert. -/
def addExpenseP2 (s : Store) (date amount category description : String) :
    CreateResult :=
  if date = "" ∨ amount = "" ∨ category = "" then
    .validationError "Please fill all fields"
  else
    match parseFloat amount with
    | some a => .ok (insertRow s date a category description)
    | none => .valueError

/-- `ExpenseTracker.add_expense` of `src/chk.py`: checks the required
fields, then converts `amount` inside `try/except ValueError`, showing
an error dialog when the conversion fails. -/
def addExpenseChk (s : Store) (date amount category description : String) :
    CreateResult :=
  if date = "" ∨ amount = "" ∨ category = "" then
    .validationError "Please fill all required fields!"
  else
    match parseFloat amount with
    | none => .validationError "Amount must be a number!"
    | some a => .ok (insertRow s date a category description)

/-- `DELETE FROM expenses WHERE id=?`: removes every row with the given
id; deleting an absent id touches nothing and raises nothing. -/
def deleteExpense (s : Store) (i : Nat) : Store :=
  ⟨s.rows.filter (fun r => r.id ≠ i), s.next_id⟩

/-- SQLite binary (memcmp) comparison of text values, on char lists. -/
def charListLe : List Char → List Char → Bool
  | [], _ => true
  | _ :: _, [] => false
  | a :: as, b :: bs => if a < b then true else if b < a then false else charListLe as bs

/-- Text comparison `x <= y` as `ORDER BY` uses it. -/
def strLe (x y : String) : Bool := charListLe x.toList y.toList

/-- `SELECT * FROM expenses ORDER BY date DESC` behind `load_expenses`:
every row, sorted by date descending under lexical comparison. -/
def listAll (s : Store) : List ExpenseRecord :=
  s.rows.mergeSort (fun a b => strLe b.date a.date)

/-! ### Report engine -/

/-- SQL `SUM(amount)` over a set of rows: `NULL` (here `none`) when the
set is empty, otherwise the sum. -/
def sqlSumAmounts (rows : List ExpenseRecord) : Option Rat :=
  match rows with
  | [] => none
  | _ => some ((rows.map (fun r => r.amount)).sum)

/-- `date LIKE m || '%'` for a wildcard-free month pattern: does the
date start with `m`? -/
def matchesMonth (m : String) (r : ExpenseRecord) : Bool :=
  m.toList.isPrefixOf r.date.toList

/-- Sum of the amounts of a row list. -/
def sumAmounts (l : List ExpenseRecord) : Rat :=
  (l.map (fun r => r.amount)).sum

/-- The number `monthly_summary` displays for month pattern `m`: the
`SUM` query result, with Python's `total if total else 0` mapping both
`None` (no matching rows) and a falsy `0.0` total to `0`. -/
def monthlyTotalShown (s : Store) (m : String) : Rat :=
  match sqlSumAmounts (s.rows.filter (matchesMonth m)) with
  | none => 0
  | some t => if t = 0 then 0 else t

/-- `ExpenseTracker.monthly_summary`: takes the first 7 characters of
the date field's text as the month and shows the total for it. -/
def monthlySummary (s : Store) (dateField : String) : Rat :=
  monthlyTotalShown s (dateField.take 7)

/-- `SUBSTR(date, 1, 7)`: the month key of a row. -/
def monthOf (r : ExpenseRecord) : String := r.date.take 7

/-- `SELECT category, SUM(amount) FROM expenses GROUP BY category`: one
pair per distinct category text (exact, case-sensitive match), with the
summed amount of its rows. -/
def totalsByCategory (s : Store) : List (String × Rat) :=
  ((s.rows.map (fun r => r.category)).dedup).map
    (fun c => (c, sumAmounts (s.rows.filter (fun r => r.category = c))))

/-- `SELECT SUBSTR(date,1,7) AS month, SUM(amount) FROM expenses GROUP
BY month ORDER BY month`: one pair per distinct month key, ascending by
the month string. -/
def totalsByMonth (s : Store) : List (String × Rat) :=
  (((s.rows.map monthOf).dedup).mergeSort strLe).map
    (fun m => (m, sumAmounts (s.rows.filter (fun r => monthOf r = m))))

/-! ### Reachable states -/

/-- States reachable from the fresh database by successful creates and
deletes, together with the list of ids assigned so far (in assignment
order).  Creates go through the validating `add_expense`; on success
both source variants execute the same `INSERT`. -/
inductive ReachableWith : Store → List Nat → Prop where
  | init : ReachableWith emptyStore []
  | create {s s' : Store} {as : List Nat} (d a c desc : String)
      (h : ReachableWith s as)
      (hok : addExpenseChk s d a c desc = CreateResult.ok s') :
      ReachableWith s' (as ++ [s.next_id])
  | del {s : Store} {as : List Nat} (i : Nat) (h : ReachableWith s as) :
      ReachableWith (deleteExpense s i) as

/-- Syntactic shape `YYYY-MM`: 7 characters, four digits, a dash, two
digits. -/
def isYearMonth (m : String) : Bool :=
  match m.toList with
  | [y1, y2, y3, y4, d, m1, m2] =>
    y1.isDigit && y2.isDigit && y3.isDigit && y4.isDigit &&
      d = '-' && m1.isDigit && m2.isDigit
  | _ => false

/-! ### Helper lemmas -/

lemma charListLe_total : ∀ a b : List Char, charListLe a b = true ∨ charListLe b a = true
  | [], _ => Or.inl rfl
  | _ :: _, [] => Or.inr rfl
  | a :: as, b :: bs => by
    rcases lt_trichotomy a b with h | h | h
    · left; simp [charListLe, h]
    · subst h
      rcases charListLe_total as bs with ih | ih
      · left; simp [charListLe, lt_irrefl, ih]
      · right; simp [charListLe, lt_irrefl, ih]
    · right; simp [charListLe, h]

lemma charListLe_trans :
    ∀ a b c : List Char,
      charListLe a b = true → charListLe b c = true → charListLe a c = true
  | [], _, _, _, _ => rfl
  | _ :: _, [], _, h, _ => by simp [charListLe] at h
  | _ :: _, _ :: _, [], _, h => by simp [charListLe] at h
  | a :: as, b :: bs, c :: cs, h1, h2 => by
    simp only [charListLe] at h1 h2 ⊢
    rcases lt_trichotomy a b with hab | hab | hab
    · rcases lt_trichotomy b c with hbc | hbc | hbc
      · simp [lt_trans hab hbc]
      · subst hbc; simp [hab]
      · rw [if_neg (lt_asymm hbc), if_pos hbc] at h2; exact absurd h2 (by simp)
    · subst hab
      rw [if_neg (lt_irrefl a), if_neg (lt_irrefl a)] at h1
      rcases lt_trichotomy a c with hac | hac | hac
      · simp [hac]
      · subst hac
        rw [if_neg (lt_irrefl a), if_neg (lt_irrefl a)] at h2 ⊢
        exact charListLe_trans as bs cs h1 h2
      · rw [if_neg (lt_asymm hac), if_pos hac] at h2; exact absurd h2 (by simp)
    · rw [if_neg (lt_asymm hab), if_pos hab] at h1; exact absurd h1 (by simp)

lemma strLe_total (x y : String) : strLe x y = true ∨ strLe y x = true :=
  charListLe_total x.toList y.toList

lemma strLe_trans {x y z : String} (h1 : strLe x y = true) (h2 : strLe y z = true) :
    strLe x z = true :=
  charListLe_trans x.toList y.toList z.toList h1 h2

lemma sumAmounts_nil : sumAmounts [] = 0 := rfl

lemma sumAmounts_cons (r : ExpenseRecord) (l : List ExpenseRecord) :
    sumAmounts (r :: l) = r.amount + sumAmounts l := by
  simp [sumAmounts]

lemma sumAmounts_filter_cons (p : ExpenseRecord → Bool) (r : ExpenseRecord)
    (l : List ExpenseRecord) :
    sumAmounts ((r :: l).filter p) =
      (if p r then r.amount else 0) + sumAmounts (l.filter p) := by
  by_cases h : p r = true
  · simp [List.filter_cons, h, sumAmounts_cons]
  · simp [List.filter_cons, h]

lemma sum_map_single (ks : List String) (x : String) (a : Rat)
    (hnd : ks.Nodup) (hx : x ∈ ks) :
    (ks.map (fun k => if x = k then a else 0)).sum = a := by
  induction ks with
  | nil => cases hx
  | cons k ks ih =>
    rcases List.nodup_cons.mp hnd with ⟨hk, hnd'⟩
    rcases List.mem_cons.mp hx with rfl | hx'
    · have hz : ((ks.map (fun k => if x = k then a else 0)).sum) = 0 := by
        apply List.sum_eq_zero
        intro y hy
        rcases List.mem_map.mp hy with ⟨k', hk', rfl⟩
        have : x ≠ k' := fun he => hk (he ▸ hk')
        simp [this]
      simp [hz]
    · have hxk : x ≠ k := fun he => hk (he ▸ hx')
      simp [hxk, ih hnd' hx']

/-- Summing group totals over a duplicate-free, covering list of keys
gives the total over all rows. -/
lemma sum_groupTotals (kf : ExpenseRecord → String) :
    ∀ (l : List ExpenseRecord) (ks : List String), ks.Nodup →
      (∀ r ∈ l, kf r ∈ ks) →
      (ks.map (fun k => sumAmounts (l.filter (fun r => kf r = k)))).sum = sumAmounts l := by
  intro l
  induction l with
  | nil =>
    intro ks _ _
    simp [sumAmounts]
  | cons r l ih =>
    intro ks hnd hcov
    have hstep :
        (ks.map (fun k => sumAmounts ((r :: l).filter (fun x => kf x = k)))).sum =
          (ks.map (fun k => (if kf r = k then r.amount else 0) +
            sumAmounts (l.filter (fun x => kf x = k)))).sum := by
      congr 1
      apply List.map_congr_left
      intro k _
      simpa using sumAmounts_filter_cons (fun x => decide (kf x = k)) r l
    rw [hstep, List.sum_map_add, sum_map_single ks (kf r) r.amount hnd
        (hcov r (List.mem_cons_self r l)),
      ih ks hnd (fun x hx => hcov x (List.mem_cons_of_mem r hx)), sumAmounts_cons]

/-- Inversion of a successful `add_expense` in the `chk.py` variant. -/
lemma addExpenseChk_ok {s s' : Store} {d a c desc : String}
    (h : addExpenseChk s d a c desc = CreateResult.ok s') :
    d ≠ "" ∧ c ≠ "" ∧ ∃ v, parseFloat a = some v ∧ s' = insertRow s d v c desc := by
  unfold addExpenseChk at h
  by_cases he : d = "" ∨ a = "" ∨ c = ""
  · rw [if_pos he] at h; exact absurd h (by simp)
  · rw [if_neg he] at h
    push_neg at he
    refine ⟨he.1, he.2.2, ?_⟩
    cases hp : parseFloat a with
    | none => rw [hp] at h; exact absurd h (by simp)
    | some v =>
      rw [hp] at h
      cases h
      exact ⟨v, rfl, rfl⟩

/-- The `SUM`-query result shown by `monthly_summary` always equals the
plain sum over the matching rows: `NULL` on no rows and the falsy-zero
branch both display `0`, which is also the empty sum. -/
lemma monthlyTotalShown_eq_sum (s : Store) (m : String) :
    monthlyTotalShown s m = sumAmounts (s.rows.filter (matchesMonth m)) := by
  unfold monthlyTotalShown sqlSumAmounts
  cases hl : s.rows.filter (matchesMonth m) with
  | nil => simp [sumAmounts]
  | cons r t =>
    simp only [sumAmounts]
    split
    · next h => exact h.symm
    · rfl

/-- Sample ledger used by concrete witnesses: the spec §8 example rows. -/
def sampleStore : Store :=
  ⟨[⟨1, "2025-01-10", 50, "Food", ""⟩, ⟨2, "2025-01-15", 30, "Food", ""⟩,
    ⟨3, "2025-02-01", 100, "Bills", ""⟩], 4⟩

/-- The store after one valid create on the fresh database. -/
def sampleCreated : Store := ⟨[⟨1, "2025-01-10", 50, "Food", ""⟩], 2⟩

/-! ### Claims -/

/-- C1: the claim says `create` turns empty required fields or a
non-numeric amount into a `ValidationError` and never crashes with any
other exception.  The `Project2.py` variant violates this: with
`amount = "abc"` (and non-empty date and category) its `add_expense`
calls `float("abc")` outside any `try`, raising an uncaught
`ValueError`; no row is written (the store is untouched), but no
`ValidationError` dialog is shown.  The `chk.py` variant catches the
`ValueError` and shows the intended validation dialog, which is the
spec's stated behaviour. -/
theorem addExpenseP2_abc_raises_valueError :
    addExpenseP2 emptyStore "2025-01-01" "abc" "Food" "" = CreateResult.valueError ∧
    addExpenseChk emptyStore "2025-01-01" "abc" "Food" ""
      = CreateResult.validationError "Amount must be a number!" := by
  decide

/-- C2: for a `YYYY-MM` month pattern, the monthly total shown is the
sum of `amount` over exactly the rows whose date starts with that
pattern, and it is `0` (not an error and not null) when no row
matches. -/
theorem monthlyTotal_eq_sum_of_matching (s : Store) (m : String)
    (h : isYearMonth m = true) :
    monthlyTotalShown s m = sumAmounts (s.rows.filter (matchesMonth m)) ∧
    ((∀ r ∈ s.rows, matchesMonth m r = false) → monthlyTotalShown s m = 0) := by
  refine ⟨monthlyTotalShown_eq_sum s m, fun hall => ?_⟩
  rw [monthlyTotalShown_eq_sum]
  have : s.rows.filter (matchesMonth m) = [] := by
    apply List.filter_eq_nil_iff.mpr
    intro r hr
    simp [hall r hr]
  rw [this]
  rfl

theorem monthlyTotal_eq_sum_of_matching_witness :
    isYearMonth "2025-01" = true ∧
    (monthlyTotalShown sampleStore "2025-01" =
        sumAmounts (sampleStore.rows.filter (matchesMonth "2025-01")) ∧
      ((∀ r ∈ sampleStore.rows, matchesMonth "2025-01" r = false) →
        monthlyTotalShown sampleStore "2025-01" = 0)) :=
  ⟨by decide, monthlyTotal_eq_sum_of_matching sampleStore "2025-01" (by decide)⟩

/-- C3: `list_all` returns every stored record (a permutation of the
table rows) ordered descending by the date string under lexical
comparison; the order within one call is a fixed function of the store,
hence consistent. -/
theorem listAll_perm_and_sorted_desc (s : Store) :
    (listAll s).Perm s.rows ∧
    (listAll s).Pairwise (fun a b => strLe b.date a.date = true) := by
  refine ⟨List.mergeSort_perm s.rows _, ?_⟩
  exact @List.sorted_mergeSort ExpenseRecord (fun a b => strLe b.date a.date)
    (fun a b c hab hbc => strLe_trans hbc hab)
    (fun a b => by rcases strLe_total b.date a.date with h | h <;> simp [h])
    s.rows

/-- C10: with an empty date field the month pattern is the empty string,
which prefix-matches every stored date, so the reported monthly total is
the sum over the whole store, not `0` and not an error. -/
theorem monthlySummary_emptyField_totals_everything (s : Store) :
    monthlySummary s "" = sumAmounts s.rows := by
  unfold monthlySummary
  rw [show ("" : String).take 7 = "" from rfl, monthlyTotalShown_eq_sum]
  congr 1
  apply List.filter_eq_self.mpr
  intro r _
  have h0 : ("" : String).toList = [] := by decide
  simp [matchesMonth, h0, List.isPrefixOf]

/-- C4: `totals_by_category` groups by exact, case-sensitive category
text: each listed pair carries the sum of `amount` over the rows with
exactly that category, its keys are exactly the categories occurring in
the store with no duplicates (so the groups partition the rows), the
values sum to the total of all amounts, and the result is empty for an
empty store. -/
theorem totalsByCategory_partitions (s : Store) :
    (∀ p ∈ totalsByCategory s,
      p.2 = sumAmounts (s.rows.filter (fun r => r.category = p.1))) ∧
    (∀ c : String,
      (∃ p ∈ totalsByCategory s, p.1 = c) ↔ ∃ r ∈ s.rows, r.category = c) ∧
    ((totalsByCategory s).map Prod.fst).Nodup ∧
    ((totalsByCategory s).map Prod.snd).sum = sumAmounts s.rows ∧
    (s.rows = [] → totalsByCategory s = []) := by
  refine ⟨?_, ?_, ?_, ?_, ?_⟩
  · intro p hp
    rcases List.mem_map.mp hp with ⟨c, _, rfl⟩
    rfl
  · intro c
    constructor
    · rintro ⟨p, hp, rfl⟩
      rcases List.mem_map.mp hp with ⟨c', hc', heq⟩
      have : c' = p.1 := by rw [← heq]
      rcases List.mem_map.mp (List.mem_dedup.mp hc') with ⟨r, hr, hrc⟩
      exact ⟨r, hr, by rw [hrc, this]⟩
    · rintro ⟨r, hr, rfl⟩
      refine ⟨(r.category,
        sumAmounts (s.rows.filter (fun x => x.category = r.category))), ?_, rfl⟩
      exact List.mem_map.mpr ⟨r.category,
        List.mem_dedup.mpr (List.mem_map.mpr ⟨r, hr, rfl⟩), rfl⟩
  · unfold totalsByCategory
    rw [List.map_map]
    have hcomp : (Prod.fst ∘ fun c =>
        (c, sumAmounts (s.rows.filter (fun r => r.category = c)))) = id := rfl
    rw [hcomp, List.map_id]
    exact List.nodup_dedup _
  · unfold totalsByCategory
    rw [List.map_map]
    exact sum_groupTotals (fun r => r.category) s.rows
      ((s.rows.map (fun r => r.category)).dedup)
      (List.nodup_dedup _)
      (fun r hr => List.mem_dedup.mpr (List.mem_map.mpr ⟨r, hr, rfl⟩))
  · intro h
    simp [totalsByCategory, h]

theorem totalsByCategory_partitions_witness :
    (∀ p ∈ totalsByCategory sampleStore,
      p.2 = sumAmounts (sampleStore.rows.filter (fun r => r.category = p.1))) ∧
    (∀ c : String,
      (∃ p ∈ totalsByCategory sampleStore, p.1 = c) ↔
        ∃ r ∈ sampleStore.rows, r.category = c) ∧
    ((totalsByCategory sampleStore).map Prod.fst).Nodup ∧
    ((totalsByCategory sampleStore).map Prod.snd).sum = sumAmounts sampleStore.rows ∧
    (sampleStore.rows = [] → totalsByCategory sampleStore = []) :=
  totalsByCategory_partitions sampleStore

/-- `totals_by_month` written out as a map over the sorted distinct
month keys. -/
lemma totalsByMonth_eq_map (s : Store) :
    totalsByMonth s =
      (((s.rows.map monthOf).dedup).mergeSort strLe).map
        (fun m => (m, sumAmounts (s.rows.filter (fun r => monthOf r = m)))) := rfl

lemma totalsByMonth_keys (s : Store) :
    ((totalsByMonth s).map Prod.fst) =
      ((s.rows.map monthOf).dedup).mergeSort strLe := by
  rw [totalsByMonth_eq_map, List.map_map]
  have hcomp : (Prod.fst ∘ fun m =>
      (m, sumAmounts (s.rows.filter (fun r => monthOf r = m)))) = id := rfl
  rw [hcomp, List.map_id]

lemma totalsByMonth_vals (s : Store) :
    ∀ p ∈ totalsByMonth s,
      p.2 = sumAmounts (s.rows.filter (fun r => monthOf r = p.1)) := by
  intro p hp
  rw [totalsByMonth_eq_map] at hp
  rcases List.mem_map.mp hp with ⟨m, _, rfl⟩
  rfl

lemma totalsByMonth_mem_keys (s : Store) (m : String) :
    m ∈ (totalsByMonth s).map Prod.fst ↔ ∃ r ∈ s.rows, monthOf r = m := by
  rw [totalsByMonth_keys, (List.mergeSort_perm _ _).mem_iff, List.mem_dedup,
    List.mem_map]

lemma totalsByMonth_keys_nodup (s : Store) :
    ((totalsByMonth s).map Prod.fst).Nodup := by
  rw [totalsByMonth_keys]
  exact (List.mergeSort_perm _ _).symm.nodup (List.nodup_dedup _)

lemma totalsByMonth_keys_sorted (s : Store) :
    ((totalsByMonth s).map Prod.fst).Pairwise (fun a b => strLe a b = true) := by
  rw [totalsByMonth_keys]
  exact @List.sorted_mergeSort String strLe
    (fun a b c hab hbc => strLe_trans hab hbc)
    (fun a b => by rcases strLe_total a b with h | h <;> simp [h])
    ((s.rows.map monthOf).dedup)

lemma totalsByMonth_empty (s : Store) (h : s.rows = []) : totalsByMonth s = [] := by
  rw [totalsByMonth_eq_map, h]
  rw [show ((List.map monthOf ([] : List ExpenseRecord)).dedup : List String)
    = [] from rfl, List.mergeSort_nil, List.map_nil]

/-- C5: `totals_by_month` groups rows by the first 7 characters of the
date, carries the summed amount of each group, lists each occurring
month exactly once in ascending lexical order, and is empty for an
empty store. -/
theorem totalsByMonth_grouped_sorted (s : Store) :
    (∀ p ∈ totalsByMonth s,
      p.2 = sumAmounts (s.rows.filter (fun r => monthOf r = p.1))) ∧
    (∀ m : String,
      m ∈ (totalsByMonth s).map Prod.fst ↔ ∃ r ∈ s.rows, monthOf r = m) ∧
    ((totalsByMonth s).map Prod.fst).Nodup ∧
    ((totalsByMonth s).map Prod.fst).Pairwise (fun a b => strLe a b = true) ∧
    (s.rows = [] → totalsByMonth s = []) :=
  ⟨totalsByMonth_vals s, totalsByMonth_mem_keys s, totalsByMonth_keys_nodup s,
    totalsByMonth_keys_sorted s, totalsByMonth_empty s⟩

theorem totalsByMonth_grouped_sorted_witness :
    (∀ p ∈ totalsByMonth sampleStore,
      p.2 = sumAmounts (sampleStore.rows.filter (fun r => monthOf r = p.1))) ∧
    (∀ m : String,
      m ∈ (totalsByMonth sampleStore).map Prod.fst ↔
        ∃ r ∈ sampleStore.rows, monthOf r = m) ∧
    ((totalsByMonth sampleStore).map Prod.fst).Nodup ∧
    ((totalsByMonth sampleStore).map Prod.fst).Pairwise (fun a b => strLe a b = true) ∧
    (sampleStore.rows = [] → totalsByMonth sampleStore = []) :=
  totalsByMonth_grouped_sorted sampleStore

/-- C6: on valid input (non-empty date and category, numeric amount
text) both `add_expense` variants succeed with the same insert; the
resulting `list_all` view is the prior rows plus exactly one new record
whose fields equal the input (amount after numeric conversion), carrying
the next AUTOINCREMENT id, which differs from every id in the store. -/
theorem create_then_listAll_adds_one (s : Store) (d amt c desc : String) (a : Rat)
    (hwf : ∀ r ∈ s.rows, r.id < s.next_id)
    (hd : d ≠ "") (hc : c ≠ "") (hp : parseFloat amt = some a) :
    addExpenseChk s d amt c desc = CreateResult.ok (insertRow s d a c desc) ∧
    addExpenseP2 s d amt c desc = CreateResult.ok (insertRow s d a c desc) ∧
    (listAll (insertRow s d a c desc)).Perm
      ((⟨s.next_id, d, a, c, desc⟩ : ExpenseRecord) :: s.rows) ∧
    (∀ r ∈ s.rows, r.id ≠ s.next_id) := by
  have hamt : amt ≠ "" := by
    intro he
    rw [he, show parseFloat "" = none from rfl] at hp
    cases hp
  have hcond : ¬(d = "" ∨ amt = "" ∨ c = "") := by
    push_neg
    exact ⟨hd, hamt, hc⟩
  refine ⟨?_, ?_, ?_, fun r hr => Nat.ne_of_lt (hwf r hr)⟩
  · unfold addExpenseChk
    rw [if_neg hcond, hp]
  · unfold addExpenseP2
    rw [if_neg hcond, hp]
  · have h1 : (listAll (insertRow s d a c desc)).Perm
        (s.rows ++ [⟨s.next_id, d, a, c, desc⟩]) :=
      List.mergeSort_perm _ _
    exact h1.trans (List.perm_append_singleton _ _)

theorem create_then_listAll_adds_one_witness :
    (∀ r ∈ sampleStore.rows, r.id < sampleStore.next_id) ∧
    ("2025-03-02" : String) ≠ "" ∧ ("Transport" : String) ≠ "" ∧
    parseFloat "12.5" = some (mkRat 25 2) ∧
    (addExpenseChk sampleStore "2025-03-02" "12.5" "Transport" "bus"
        = CreateResult.ok (insertRow sampleStore "2025-03-02" (mkRat 25 2) "Transport" "bus") ∧
      addExpenseP2 sampleStore "2025-03-02" "12.5" "Transport" "bus"
        = CreateResult.ok (insertRow sampleStore "2025-03-02" (mkRat 25 2) "Transport" "bus") ∧
      (listAll (insertRow sampleStore "2025-03-02" (mkRat 25 2) "Transport" "bus")).Perm
        ((⟨sampleStore.next_id, "2025-03-02", mkRat 25 2, "Transport", "bus"⟩ : ExpenseRecord)
          :: sampleStore.rows) ∧
      (∀ r ∈ sampleStore.rows, r.id ≠ sampleStore.next_id)) :=
  ⟨by decide, by decide, by decide, by decide,
    create_then_listAll_adds_one sampleStore "2025-03-02" "12.5" "Transport" "bus" (mkRat 25 2)
      (by decide) (by decide) (by decide) (by decide)⟩

/-- C7: deleting an id that is present removes every record bearing it
from the `list_all` view and leaves every other record unchanged: what
remains is exactly the prior records whose id differs. -/
theorem delete_removes_exactly_target (s : Store) (i : Nat)
    (hex : ∃ r ∈ s.rows, r.id = i) :
    (∀ r ∈ listAll (deleteExpense s i), r.id ≠ i) ∧
    (∀ r ∈ s.rows, r.id ≠ i → r ∈ listAll (deleteExpense s i)) ∧
    (∀ r ∈ listAll (deleteExpense s i), r ∈ s.rows) := by
  have hperm : (listAll (deleteExpense s i)).Perm
      (s.rows.filter (fun r => r.id ≠ i)) := List.mergeSort_perm _ _
  refine ⟨?_, ?_, ?_⟩
  · intro r hr
    have := (List.mem_filter.mp (hperm.mem_iff.mp hr)).2
    simpa using this
  · intro r hr hne
    exact hperm.mem_iff.mpr (List.mem_filter.mpr ⟨hr, by simpa using hne⟩)
  · intro r hr
    exact (List.mem_filter.mp (hperm.mem_iff.mp hr)).1

theorem delete_removes_exactly_target_witness :
    (∃ r ∈ sampleStore.rows, r.id = 2) ∧
    ((∀ r ∈ listAll (deleteExpense sampleStore 2), r.id ≠ 2) ∧
      (∀ r ∈ sampleStore.rows, r.id ≠ 2 → r ∈ listAll (deleteExpense sampleStore 2)) ∧
      (∀ r ∈ listAll (deleteExpense sampleStore 2), r ∈ sampleStore.rows)) :=
  ⟨by decide, delete_removes_exactly_target sampleStore 2 (by decide)⟩

/-- C8: deleting an id that no stored record carries is a silent no-op:
the operation is a total function (nothing is raised) and the
`list_all` view is exactly unchanged. -/
theorem delete_absent_id_is_noop (s : Store) (i : Nat)
    (h : ∀ r ∈ s.rows, r.id ≠ i) :
    listAll (deleteExpense s i) = listAll s := by
  have hfe : s.rows.filter (fun r => r.id ≠ i) = s.rows :=
    List.filter_eq_self.mpr (fun r hr => by simpa using h r hr)
  unfold listAll deleteExpense
  simp only
  rw [hfe]

theorem delete_absent_id_is_noop_witness :
    (∀ r ∈ sampleStore.rows, r.id ≠ 99) ∧
    listAll (deleteExpense sampleStore 99) = listAll sampleStore :=
  ⟨by decide, delete_absent_id_is_noop sampleStore 99 (by decide)⟩

/-- C9: in every reachable store state the assigned ids (in assignment
order) are strictly increasing — so an id is never reassigned, even
after the record bearing it is deleted — every id ever assigned is below
the AUTOINCREMENT counter (so the next assignment is fresh), the ids in
the store identify exactly one record each, and every stored id was
assigned by a create. -/
theorem reachable_ids_unique_increasing (s : Store) (as : List Nat)
    (h : ReachableWith s as) :
    as.Pairwise (· < ·) ∧ (∀ x ∈ as, x < s.next_id) ∧
    ((s.rows.map (fun r => r.id)).Nodup) ∧ (∀ r ∈ s.rows, r.id ∈ as) := by
  induction h with
  | init =>
    refine ⟨List.Pairwise.nil, ?_, ?_, ?_⟩ <;> simp [emptyStore]
  | create d a c desc hre hok ih =>
    obtain ⟨hd, hc, v, hv, rfl⟩ := addExpenseChk_ok hok
    obtain ⟨ih1, ih2, ih3, ih4⟩ := ih
    simp only [insertRow]
    refine ⟨?_, ?_, ?_, ?_⟩
    · rw [List.pairwise_append]
      refine ⟨ih1, List.pairwise_singleton _ _, ?_⟩
      intro x hx b hb
      rw [List.mem_singleton] at hb
      subst hb
      exact ih2 x hx
    · intro x hx
      rcases List.mem_append.mp hx with hx | hx
      · exact Nat.lt_succ_of_lt (ih2 x hx)
      · rw [List.mem_singleton] at hx
        subst hx
        exact Nat.lt_succ_self _
    · rw [List.map_append, List.nodup_append]
      refine ⟨ih3, List.nodup_singleton _, ?_⟩
      intro x hx hx'
      rcases List.mem_map.mp hx with ⟨r, hr, rfl⟩
      rw [show (List.map (fun r => r.id)
        [(⟨_, d, v, c, desc⟩ : ExpenseRecord)] : List Nat) = [_] from rfl,
        List.mem_singleton] at hx'
      exact absurd (ih2 r.id (ih4 r hr)) (by rw [hx']; exact Nat.lt_irrefl _)
    · intro r hr
      rcases List.mem_append.mp hr with hr | hr
      · exact List.mem_append_left _ (ih4 r hr)
      · rw [List.mem_singleton] at hr
        subst hr
        exact List.mem_append_right _ (List.mem_singleton_self _)
  | del i hre ih =>
    obtain ⟨ih1, ih2, ih3, ih4⟩ := ih
    simp only [deleteExpense]
    refine ⟨ih1, ih2, ?_, ?_⟩
    · exact ih3.sublist ((List.filter_sublist _).map _)
    · intro r hr
      exact ih4 r (List.mem_of_mem_filter hr)

theorem reachable_ids_unique_increasing_witness :
    ([1] : List Nat).Pairwise (· < ·) ∧ (∀ x ∈ ([1] : List Nat), x < 2) ∧
    ((sampleCreated.rows.map (fun r => r.id)).Nodup) ∧
    (∀ r ∈ sampleCreated.rows, r.id ∈ ([1] : List Nat)) :=
  reachable_ids_unique_increasing sampleCreated [1]
    (ReachableWith.create "2025-01-10" "50" "Food" "" ReachableWith.init (by decide))

end ExpenseStore
